import Mathlib
set_option maxRecDepth 100000

/-!
# Verification of the oz-monitor-orchestrator core

A shallow embedding in Lean 4 of the parts of the `oz-monitor-orchestrator`
Rust sources that the specification's claims are about, together with proofs
and refutations of those claims.

Modelling conventions, used uniformly below:

* `f64` values are modelled as `ℚ` (exact rational arithmetic); `u64`/`usize`
  values are modelled as `Nat`.  Rust's `as i32`/`as i64` casts (truncation
  toward zero) are modelled by `f64TruncToInt`.
* `Uuid` is modelled as `Nat`; its canonical string form is `toString`.
* `std::collections::HashMap` is modelled as an association list
  (`List (key × value)`); `insert` replaces the first binding with the same
  key (or appends), `get` returns the first binding.  The map's iteration
  order, which Rust leaves unspecified, is the list order.
* The 64-bit hash produced by `std::collections::hash_map::DefaultHasher`
  (an explicitly unspecified, non-cryptographic algorithm per the Rust
  standard library documentation) is taken as a parameter
  `hash : String → Nat` of the functions that use it.
* Asynchronous functions become pure state-passing functions; wall-clock
  fields (`assigned_at`, `collected_at`, `last_rebalance`) and logging are
  not modelled.
-/

namespace OzOrch

/-! ## Association-list model of `HashMap` -/

/-- First binding for a key, like `HashMap::get`. -/
def lookupA {α β : Type} [DecidableEq α] : List (α × β) → α → Option β
  | [], _ => none
  | (k, v) :: rest, a => if k = a then some v else lookupA rest a

/-- `HashMap::insert`: replace the first binding with this key, else append. -/
def insertA {α β : Type} [DecidableEq α] : List (α × β) → α → β → List (α × β)
  | [], a, b => [(a, b)]
  | (k, v) :: rest, a, b => if k = a then (a, b) :: rest else (k, v) :: insertA rest a b

/-- `HashMap::get_mut` followed by an in-place modification: update the first
binding with this key, no effect when the key is absent. -/
def updateA {α β : Type} [DecidableEq α] : List (α × β) → α → (β → β) → List (α × β)
  | [], _, _ => []
  | (k, v) :: rest, a, f => if k = a then (k, f v) :: rest else (k, v) :: updateA rest a f

/-- `Iterator::min_by_key`: the first element attaining the minimal key
(Rust returns the first of several equally minimal elements). -/
def minByKeyFirst {α κ : Type} [LinearOrder κ] (key : α → κ) : List α → Option α
  | [] => none
  | x :: xs => some (xs.foldl (fun acc y => if key y < key acc then y else acc) x)

theorem lookupA_insertA_self {α β : Type} [DecidableEq α] (l : List (α × β)) (k : α) (v : β) :
    lookupA (insertA l k v) k = some v := by
  induction l with
  | nil => simp [insertA, lookupA]
  | cons p rest ih =>
    obtain ⟨k', v'⟩ := p
    by_cases h : k' = k
    · simp [insertA, lookupA, h]
    · simp [insertA, lookupA, h, ih]

theorem lookupA_insertA_ne {α β : Type} [DecidableEq α] (l : List (α × β)) (k k' : α) (v : β)
    (h : k' ≠ k) : lookupA (insertA l k v) k' = lookupA l k' := by
  induction l with
  | nil => simp [insertA, lookupA, Ne.symm h]
  | cons p rest ih =>
    obtain ⟨k₀, v₀⟩ := p
    by_cases h0 : k₀ = k
    · subst h0
      simp [insertA, lookupA, Ne.symm h]
    · simp [insertA, lookupA, h0, ih]

theorem lookupA_isSome_iff_mem {α β : Type} [DecidableEq α] (l : List (α × β)) (k : α) :
    (lookupA l k).isSome = true ↔ k ∈ l.map Prod.fst := by
  induction l with
  | nil => simp [lookupA]
  | cons p rest ih =>
    obtain ⟨k', v'⟩ := p
    by_cases h : k' = k
    · simp [lookupA, h]
    · simp [lookupA, h, ih, Ne.symm h]

theorem updateA_map_fst {α β : Type} [DecidableEq α] (l : List (α × β)) (a : α) (f : β → β) :
    (updateA l a f).map Prod.fst = l.map Prod.fst := by
  induction l with
  | nil => simp [updateA]
  | cons p rest ih =>
    obtain ⟨k, v⟩ := p
    by_cases h : k = a
    · simp [updateA, h]
    · simp [updateA, h, ih]

theorem minByKeyFirst_mem {α κ : Type} [LinearOrder κ] (key : α → κ) (l : List α) (x : α)
    (h : minByKeyFirst key l = some x) : x ∈ l := by
  cases l with
  | nil => simp [minByKeyFirst] at h
  | cons y ys =>
    simp only [minByKeyFirst, Option.some.injEq] at h
    subst h
    have aux : ∀ (zs : List α) (a : α),
        zs.foldl (fun acc y => if key y < key acc then y else acc) a ∈ a :: zs := by
      intro zs
      induction zs with
      | nil => intro a; simp
      | cons z zs ih =>
        intro a
        simp only [List.foldl_cons]
        rcases List.mem_cons.mp (ih (if key z < key a then z else a)) with h1 | h1
        · rw [h1]
          by_cases hz : key z < key a
          · simp [hz]
          · simp [hz]
        · simp [h1]
    exact aux ys y

theorem minByKeyFirst_isSome {α κ : Type} [LinearOrder κ] (key : α → κ) (l : List α)
    (h : l ≠ []) : (minByKeyFirst key l).isSome = true := by
  cases l with
  | nil => exact absurd rfl h
  | cons y ys => simp [minByKeyFirst]

/-! ## `src/models/metrics.rs` -/

/-- `TenantMetrics` (timestamp fields `last_active`, `collected_at` omitted). -/
structure TenantMetrics where
  tenant_id : Nat
  monitors_count : Nat
  avg_rpc_calls_per_minute : ℚ
  avg_filter_complexity : ℚ
  total_matches_last_hour : Nat
  notifications_sent_last_hour : Nat
deriving Repr, DecidableEq

/-- `TenantMetrics::activity_score`. -/
def TenantMetrics.activity_score (m : TenantMetrics) : ℚ :=
  let rpc_score := min (m.avg_rpc_calls_per_minute / 100) 1
  let complexity_score := min (m.avg_filter_complexity / 10) 1
  let matches_score := min ((m.total_matches_last_hour : ℚ) / 1000) 1
  min (rpc_score * 0.4 + complexity_score * 0.3 + matches_score * 0.3) 1

/-- `WorkerMetrics` (timestamp field `collected_at` omitted). -/
structure WorkerMetrics where
  worker_id : String
  tenant_count : Nat
  cpu_usage : ℚ
  memory_usage : ℚ
  rpc_rate : ℚ
  avg_processing_time_ms : ℚ
  errors_last_hour : Nat
  uptime_seconds : Nat
deriving Repr, DecidableEq

/-- Rust `as i32` / `as i64` on an `f64`: truncation toward zero. -/
def f64TruncToInt (q : ℚ) : ℤ := if 0 ≤ q then ⌊q⌋ else ⌈q⌉

/-! ## `src/models/assignment.rs` -/

inductive AssignmentReason where
  | Initial
  | LoadRebalance
  | WorkerFailure
  | Manual
  | Scaling
  | PriorityChange
deriving Repr, DecidableEq

/-- `TenantAssignment` (timestamp field `assigned_at` omitted). -/
structure TenantAssignment where
  tenant_id : Nat
  worker_id : String
  version : Nat
  reason : AssignmentReason
deriving Repr, DecidableEq

/-- `TenantAssignment::new`: a fresh assignment always carries `version: 1`. -/
def TenantAssignment.new (tenant_id : Nat) (worker_id : String)
    (reason : AssignmentReason) : TenantAssignment :=
  { tenant_id := tenant_id, worker_id := worker_id, version := 1, reason := reason }

/-- `TenantAssignment::reassign` (defined in the source but not called by
`rebalance`): increments the version. -/
def TenantAssignment.reassign (a : TenantAssignment) (new_worker_id : String)
    (reason : AssignmentReason) : TenantAssignment :=
  { tenant_id := a.tenant_id, worker_id := new_worker_id, version := a.version + 1,
    reason := reason }

theorem activity_score_le_one (m : TenantMetrics) : m.activity_score ≤ 1 :=
  min_le_right _ _

theorem activity_score_sum_le_one (m : TenantMetrics) :
    min (m.avg_rpc_calls_per_minute / 100) 1 * 0.4
      + min (m.avg_filter_complexity / 10) 1 * 0.3
      + min ((m.total_matches_last_hour : ℚ) / 1000) 1 * 0.3 ≤ 1 := by
  have h1 : min (m.avg_rpc_calls_per_minute / 100) 1 ≤ 1 := min_le_right _ _
  have h2 : min (m.avg_filter_complexity / 10) 1 ≤ 1 := min_le_right _ _
  have h3 : min ((m.total_matches_last_hour : ℚ) / 1000) 1 ≤ 1 := min_le_right _ _
  nlinarith

/-- C9: for every `TenantMetrics` record with non-negative numeric fields,
`activity_score` equals
`0.4·min(1, rpc/100) + 0.3·min(1, complexity/10) + 0.3·min(1, matches/1000)`,
lies in `[0, 1]`, and is monotone in the three contributing fields. -/
theorem C9_activity_score_formula_bounds_monotone (m1 m2 : TenantMetrics)
    (hr : 0 ≤ m1.avg_rpc_calls_per_minute) (hc : 0 ≤ m1.avg_filter_complexity) :
    m1.activity_score =
      0.4 * min 1 (m1.avg_rpc_calls_per_minute / 100)
        + 0.3 * min 1 (m1.avg_filter_complexity / 10)
        + 0.3 * min 1 ((m1.total_matches_last_hour : ℚ) / 1000) ∧
    0 ≤ m1.activity_score ∧ m1.activity_score ≤ 1 ∧
    (m1.avg_rpc_calls_per_minute ≤ m2.avg_rpc_calls_per_minute →
     m1.avg_filter_complexity ≤ m2.avg_filter_complexity →
     m1.total_matches_last_hour ≤ m2.total_matches_last_hour →
     m1.activity_score ≤ m2.activity_score) := by
  refine ⟨?_, ?_, activity_score_le_one m1, ?_⟩
  · unfold TenantMetrics.activity_score
    rw [min_eq_left (activity_score_sum_le_one m1)]
    rw [min_comm (m1.avg_rpc_calls_per_minute / 100) 1,
      min_comm (m1.avg_filter_complexity / 10) 1,
      min_comm ((m1.total_matches_last_hour : ℚ) / 1000) 1]
    ring
  · unfold TenantMetrics.activity_score
    have h1 : (0 : ℚ) ≤ min (m1.avg_rpc_calls_per_minute / 100) 1 :=
      le_min (by positivity) (by norm_num)
    have h2 : (0 : ℚ) ≤ min (m1.avg_filter_complexity / 10) 1 :=
      le_min (by positivity) (by norm_num)
    have h3 : (0 : ℚ) ≤ min ((m1.total_matches_last_hour : ℚ) / 1000) 1 :=
      le_min (by positivity) (by norm_num)
    have : (0 : ℚ) ≤ min (m1.avg_rpc_calls_per_minute / 100) 1 * 0.4
        + min (m1.avg_filter_complexity / 10) 1 * 0.3
        + min ((m1.total_matches_last_hour : ℚ) / 1000) 1 * 0.3 := by nlinarith
    exact le_min this (by norm_num)
  · intro ha hb hm
    unfold TenantMetrics.activity_score
    dsimp only
    have hm' : (m1.total_matches_last_hour : ℚ) ≤ (m2.total_matches_last_hour : ℚ) := by
      exact_mod_cast hm
    gcongr

/-! ## `src/services/load_balancer.rs`

The balancer's `Arc<RwLock<…>>` fields become plain fields of a state record;
each `async fn` becomes a function from the state (returning the new state
where the original mutates).  The `DefaultHasher` 64-bit hash is the `hash`
parameter. -/

inductive LoadBalancingStrategy where
  | RoundRobin
  | LeastLoaded
  | ConsistentHashing
  | ActivityBased
deriving Repr, DecidableEq

/-- `LoadBalancerConfig` (`min_rebalance_interval`, a wall-clock duration,
is not modelled). -/
structure LoadBalancerConfig where
  strategy : LoadBalancingStrategy
  max_tenants_per_worker : Nat
  rebalance_threshold : ℚ
deriving Repr, DecidableEq

/-- The `LoadBalancer` state (`last_rebalance`, a wall-clock instant, is not
modelled). -/
structure LoadBalancer where
  assignments : List (Nat × TenantAssignment)
  worker_loads : List (String × WorkerMetrics)
  tenant_metrics : List (Nat × TenantMetrics)
  tenant_worker_map : List (String × String)
  config : LoadBalancerConfig
deriving Repr, DecidableEq

/-- `LoadBalancer::get_worker_for_tenant`. -/
def LoadBalancer.get_worker_for_tenant (lb : LoadBalancer) (tenant_id : Nat) : Option String :=
  (lookupA lb.assignments tenant_id).map (fun a => a.worker_id)

/-- `LoadBalancer::round_robin_assignment`: worker with the smallest
`tenant_count`, first in iteration order on ties. -/
def LoadBalancer.round_robin_assignment (lb : LoadBalancer) : Except String String :=
  match minByKeyFirst (fun p => p.2.tenant_count) lb.worker_loads with
  | some p => .ok p.1
  | none => .error "No workers available"

/-- `LoadBalancer::least_loaded_assignment`: minimizes
`(cpu·100) as i32 + (mem·100) as i32 + tenant_count as i32`. -/
def LoadBalancer.least_loaded_assignment (lb : LoadBalancer) : Except String String :=
  match minByKeyFirst (fun p =>
      f64TruncToInt (p.2.cpu_usage * 100) + f64TruncToInt (p.2.memory_usage * 100)
        + (p.2.tenant_count : ℤ)) lb.worker_loads with
  | some p => .ok p.1
  | none => .error "No workers available"

/-- `LoadBalancer::consistent_hash_assignment`: an affinity-map entry naming a
registered worker wins; otherwise index the registry's key list (in map
iteration order — the source never sorts it) by the hash of the tenant id's
string form modulo the list length. -/
def LoadBalancer.consistent_hash_assignment (hash : String → Nat) (lb : LoadBalancer)
    (tenant_id : Nat) : Except String String :=
  let affinity :=
    match lookupA lb.tenant_worker_map (toString tenant_id) with
    | some worker_id => if (lookupA lb.worker_loads worker_id).isSome then some worker_id else none
    | none => none
  match affinity with
  | some worker_id => .ok worker_id
  | none =>
    let workers := lb.worker_loads.map Prod.fst
    if workers.isEmpty then .error "No workers available"
    else .ok (workers.getD (hash (toString tenant_id) % workers.length) "")

/-- `LoadBalancer::activity_based_assignment`. -/
def LoadBalancer.activity_based_assignment (hash : String → Nat) (lb : LoadBalancer)
    (tenant_id : Nat) : Except String String :=
  match lookupA lb.tenant_metrics tenant_id with
  | some metrics =>
    if metrics.activity_score > 0.7 then lb.least_loaded_assignment
    else lb.consistent_hash_assignment hash tenant_id
  | none => lb.consistent_hash_assignment hash tenant_id

/-- The strategy dispatch at the top of `LoadBalancer::assign_tenant`. -/
def LoadBalancer.pickWorker (hash : String → Nat) (lb : LoadBalancer)
    (tenant_id : Nat) : Except String String :=
  match lb.config.strategy with
  | .RoundRobin => lb.round_robin_assignment
  | .LeastLoaded => lb.least_loaded_assignment
  | .ConsistentHashing => lb.consistent_hash_assignment hash tenant_id
  | .ActivityBased => lb.activity_based_assignment hash tenant_id

/-- `LoadBalancer::assign_tenant`.  Returns the chosen worker (or the
`NoWorkersAvailable` error) together with the state after the call; on error
the early `?` return leaves the state untouched. -/
def LoadBalancer.assign_tenant (hash : String → Nat) (lb : LoadBalancer)
    (tenant_id : Nat) : Except String String × LoadBalancer :=
  match lb.pickWorker hash tenant_id with
  | .error e => (.error e, lb)
  | .ok worker_id =>
    let reason :=
      match lb.config.strategy with
      | .RoundRobin => AssignmentReason.Initial
      | .LeastLoaded => AssignmentReason.LoadRebalance
      | .ConsistentHashing => AssignmentReason.Initial
      | .ActivityBased => AssignmentReason.LoadRebalance
    let assignments := insertA lb.assignments tenant_id
      (TenantAssignment.new tenant_id worker_id reason)
    let worker_loads := updateA lb.worker_loads worker_id
      (fun m => { m with tenant_count := m.tenant_count + 1 })
    (.ok worker_id, { lb with assignments := assignments, worker_loads := worker_loads })

/-- Stable insertion step for `sort_by(|a, b| b.1.partial_cmp(&a.1))`
(descending by score). -/
def insertDescByScore (x : Nat × ℚ) : List (Nat × ℚ) → List (Nat × ℚ)
  | [] => [x]
  | y :: ys => if x.2 < y.2 then y :: insertDescByScore x ys else x :: y :: ys

/-- Stable sort of `(tenant, score)` pairs, descending by score. -/
def sortDescByScore : List (Nat × ℚ) → List (Nat × ℚ)
  | [] => []
  | x :: xs => insertDescByScore x (sortDescByScore xs)

/-- One step of `rebalance`'s assignment loop: give the tenant to the worker
whose accumulated score, keyed through `(score * 1000.0) as i64`, is smallest
(first in iteration order on ties), appending the tenant to that worker's
list and adding its score to the accumulator. -/
def bucketStep (st : List (String × (List Nat × ℚ))) (p : Nat × ℚ) :
    List (String × (List Nat × ℚ)) :=
  match minByKeyFirst (fun w => f64TruncToInt (w.2.2 * 1000)) st with
  | some w => updateA st w.1 (fun v => (v.1 ++ [p.1], v.2 + p.2))
  | none => st

/-- One bucket of `rebalance`'s assignment loop. -/
def assignBucket (bucket : List (Nat × ℚ)) (st : List (String × (List Nat × ℚ))) :
    List (String × (List Nat × ℚ)) :=
  bucket.foldl bucketStep st

/-- `rebalance`'s local `(tenant_id, activity_score)` snapshot of the
tenant-metrics table. -/
def scoredTenants (lb : LoadBalancer) : List (Nat × ℚ) :=
  lb.tenant_metrics.map (fun p => (p.1, p.2.activity_score))

/-- `rebalance`'s `high_activity` bucket: score `> 0.7`, sorted descending. -/
def highBucket (lb : LoadBalancer) : List (Nat × ℚ) :=
  sortDescByScore ((scoredTenants lb).filter (fun p => decide (p.2 > 0.7)))

/-- `rebalance`'s `medium_activity` bucket: score `≤ 0.7` and `> 0.3`. -/
def mediumBucket (lb : LoadBalancer) : List (Nat × ℚ) :=
  sortDescByScore ((scoredTenants lb).filter (fun p => decide (¬ p.2 > 0.7 ∧ p.2 > 0.3)))

/-- `rebalance`'s `low_activity` bucket: score `≤ 0.3`. -/
def lowBucket (lb : LoadBalancer) : List (Nat × ℚ) :=
  sortDescByScore ((scoredTenants lb).filter (fun p => decide (¬ p.2 > 0.7 ∧ ¬ p.2 > 0.3)))

/-- `rebalance`'s initial per-worker state: empty tenant list, zero score. -/
def rebalanceInit (lb : LoadBalancer) : List (String × (List Nat × ℚ)) :=
  lb.worker_loads.map (fun w => (w.1, ([], 0)))

/-- The per-worker state after distributing high, then medium, then low. -/
def rebalanceState (lb : LoadBalancer) : List (String × (List Nat × ℚ)) :=
  assignBucket (lowBucket lb) (assignBucket (mediumBucket lb)
    (assignBucket (highBucket lb) (rebalanceInit lb)))

/-- `rebalance`'s `new_assignments` map: worker id to its tenant list. -/
def rebalanceDist (lb : LoadBalancer) : List (String × List Nat) :=
  (rebalanceState lb).map (fun w => (w.1, w.2.1))

/-- The replacement assignments table: after `assignments.clear()`, one fresh
`TenantAssignment::new` per distributed tenant, reason `LoadRebalance`. -/
def rebalanceAssignments (lb : LoadBalancer) : List (Nat × TenantAssignment) :=
  (rebalanceDist lb).foldl (fun acc wp =>
    wp.2.foldl (fun acc t =>
      insertA acc t (TenantAssignment.new t wp.1 AssignmentReason.LoadRebalance)) acc) []

/-- `LoadBalancer::rebalance`: bucket tenants by activity score, distribute
high → medium → low onto the least-accumulated worker, then replace the
assignments table wholesale.  Returns the per-worker distribution and the new
state.  An empty registry returns early with an empty distribution and an
untouched state (in particular the old assignments survive). -/
def LoadBalancer.rebalance (lb : LoadBalancer) :
    List (String × List Nat) × LoadBalancer :=
  if lb.worker_loads.isEmpty then ([], lb)
  else (rebalanceDist lb, { lb with assignments := rebalanceAssignments lb })

/-! ### The S4 rebalance scenario -/

/-- A freshly added worker's metrics, as `LoadBalancer::add_worker` creates
them (all gauges zero). -/
def freshWorkerMetrics (id : String) : WorkerMetrics :=
  { worker_id := id, tenant_count := 0, cpu_usage := 0, memory_usage := 0,
    rpc_rate := 0, avg_processing_time_ms := 0, errors_last_hour := 0,
    uptime_seconds := 0 }

/-- Tenant metrics engineered to a given activity score:
`100` rpc/min contributes `0.4`, `1000` matches contribute `0.3`, and the
filter-complexity field supplies the remainder. -/
def s4Metrics (t : Nat) (complexity : ℚ) (rpc : ℚ) (matched : Nat) : TenantMetrics :=
  { tenant_id := t, monitors_count := 1, avg_rpc_calls_per_minute := rpc,
    avg_filter_complexity := complexity, total_matches_last_hour := matched,
    notifications_sent_last_hour := 0 }

/-- The S4 scenario: workers `A` and `B`; tenants `1..4` with activity scores
`0.9, 0.8, 0.2, 0.1`, each holding a prior assignment (version 1, the only
version `assign_tenant` ever produces); strategy `ActivityBased`,
`rebalance_threshold = 0.2`. -/
def lbS4 : LoadBalancer :=
  { assignments := [(1, TenantAssignment.new 1 "A" .Initial),
      (2, TenantAssignment.new 2 "A" .Initial),
      (3, TenantAssignment.new 3 "B" .Initial),
      (4, TenantAssignment.new 4 "B" .Initial)]
    worker_loads := [("A", freshWorkerMetrics "A"), ("B", freshWorkerMetrics "B")]
    tenant_metrics := [(1, s4Metrics 1 (20/3) 100 1000), (2, s4Metrics 2 (10/3) 100 1000),
      (3, s4Metrics 3 (20/3) 0 0), (4, s4Metrics 4 (10/3) 0 0)]
    tenant_worker_map := []
    config :=
      { strategy := .ActivityBased, max_tenants_per_worker := 50, rebalance_threshold := 0.2 } }

/-- C3 counterexample: in the S4 scenario every prior assignment has version
1, and `rebalance` rebuilds the table with `TenantAssignment::new`, whose
version is always 1 — so no new assignment's version is strictly greater
than the prior's. -/
theorem C3_rebalance_version_counterexample :
    ¬ (∀ (t : Nat) (prior next : TenantAssignment),
        lookupA lbS4.assignments t = some prior →
        lookupA (lbS4.rebalance).2.assignments t = some next →
        prior.version < next.version) := by
  intro h
  have h1 := h 1 (TenantAssignment.new 1 "A" .Initial)
    { tenant_id := 1, worker_id := "A", version := 1, reason := .LoadRebalance }
    (by with_unfolding_all decide) (by with_unfolding_all decide)
  exact absurd h1 (by with_unfolding_all decide)

/-- C3 (amended): in the S4 scenario the four tenants' activity scores are
`0.9, 0.8, 0.2, 0.1`; `rebalance` splits the two high-activity tenants 1-and-1
across `A` and `B`, leaves each worker with exactly two tenants, and replaces
every assignment with one whose reason is `LoadRebalance` and whose version is
1 — the fresh version `TenantAssignment::new` always produces, equal to (not
greater than) each tenant's prior version. -/
theorem C3_s4_rebalance_amended :
    ((lookupA lbS4.tenant_metrics 1).map TenantMetrics.activity_score = some (9/10) ∧
     (lookupA lbS4.tenant_metrics 2).map TenantMetrics.activity_score = some (8/10) ∧
     (lookupA lbS4.tenant_metrics 3).map TenantMetrics.activity_score = some (2/10) ∧
     (lookupA lbS4.tenant_metrics 4).map TenantMetrics.activity_score = some (1/10)) ∧
    ((lbS4.rebalance).1.map (fun p => (p.1, p.2.length)) = [("A", 2), ("B", 2)]) ∧
    ((lbS4.rebalance).2.get_worker_for_tenant 1 = some "A" ∧
     (lbS4.rebalance).2.get_worker_for_tenant 2 = some "B") ∧
    (∀ p ∈ (lbS4.rebalance).2.assignments,
      p.2.reason = AssignmentReason.LoadRebalance ∧ p.2.version = 1) ∧
    (∀ p ∈ lbS4.assignments, p.2.version = 1) := by
  with_unfolding_all decide

/-! ### Membership lemmas for `rebalance` (C10) -/

/-- All tenants distributed so far, across all workers of the state. -/
def allTenants (st : List (String × (List Nat × ℚ))) : List Nat :=
  (st.map (fun p => p.2.1)).flatten

theorem mem_allTenants_iff (st : List (String × (List Nat × ℚ))) (x : Nat) :
    x ∈ allTenants st ↔ ∃ w ∈ st, x ∈ w.2.1 := by
  simp only [allTenants, List.mem_flatten, List.mem_map]
  constructor
  · rintro ⟨l, ⟨p, hp, rfl⟩, hx⟩
    exact ⟨p, hp, hx⟩
  · rintro ⟨w, hw, hx⟩
    exact ⟨w.2.1, ⟨w, hw, rfl⟩, hx⟩

theorem mem_allTenants_updateA (k : String) (f : List Nat × ℚ → List Nat × ℚ) (t : Nat)
    (hf : ∀ v, (f v).1 = v.1 ++ [t]) (x : Nat) :
    ∀ st : List (String × (List Nat × ℚ)), k ∈ st.map Prod.fst →
      (x ∈ allTenants (updateA st k f) ↔ x ∈ allTenants st ∨ x = t)
  | [], hk => by simp at hk
  | (k₀, v₀) :: rest, hk => by
    by_cases h : k₀ = k
    · subst h
      have e : updateA ((k₀, v₀) :: rest) k₀ f = (k₀, f v₀) :: rest := by
        simp [updateA]
      rw [e]
      simp only [allTenants, List.map_cons, List.flatten_cons, List.mem_append, hf v₀,
        List.mem_singleton]
      tauto
    · have hk' : k ∈ rest.map Prod.fst := by
        simp only [List.map_cons, List.mem_cons] at hk
        rcases hk with h1 | h1
        · exact absurd h1.symm h
        · exact h1
      have ih := mem_allTenants_updateA k f t hf x rest hk'
      have e : updateA ((k₀, v₀) :: rest) k f = (k₀, v₀) :: updateA rest k f := by
        simp [updateA, h]
      rw [e]
      simp only [allTenants, List.map_cons, List.flatten_cons, List.mem_append] at ih ⊢
      tauto

theorem minByKeyFirst_exists {α κ : Type} [LinearOrder κ] (key : α → κ) (l : List α)
    (h : l ≠ []) : ∃ x, minByKeyFirst key l = some x ∧ x ∈ l := by
  cases hm : minByKeyFirst key l with
  | none =>
    cases l with
    | nil => exact absurd rfl h
    | cons y ys => simp [minByKeyFirst] at hm
  | some x => exact ⟨x, rfl, minByKeyFirst_mem key l x hm⟩

theorem bucketStep_map_fst (st : List (String × (List Nat × ℚ))) (p : Nat × ℚ) :
    (bucketStep st p).map Prod.fst = st.map Prod.fst := by
  unfold bucketStep
  cases hm : minByKeyFirst (fun w => f64TruncToInt (w.2.2 * 1000)) st with
  | none => rfl
  | some w => exact updateA_map_fst st w.1 _

theorem bucketStep_ne_nil {st : List (String × (List Nat × ℚ))} (p : Nat × ℚ)
    (h : st ≠ []) : bucketStep st p ≠ [] := by
  intro h0
  apply h
  have hmap := bucketStep_map_fst st p
  rw [h0] at hmap
  exact List.map_eq_nil_iff.mp hmap.symm

theorem mem_allTenants_bucketStep (st : List (String × (List Nat × ℚ))) (p : Nat × ℚ)
    (h : st ≠ []) (x : Nat) :
    x ∈ allTenants (bucketStep st p) ↔ x ∈ allTenants st ∨ x = p.1 := by
  obtain ⟨w, hw, hmem⟩ := minByKeyFirst_exists (fun w => f64TruncToInt (w.2.2 * 1000)) st h
  unfold bucketStep
  rw [hw]
  exact mem_allTenants_updateA w.1 _ p.1 (fun v => rfl) x st
    (List.mem_map_of_mem Prod.fst hmem)

theorem mem_allTenants_assignBucket (x : Nat) :
    ∀ (bucket : List (Nat × ℚ)) (st : List (String × (List Nat × ℚ))), st ≠ [] →
      (x ∈ allTenants (assignBucket bucket st) ↔
        x ∈ allTenants st ∨ x ∈ bucket.map Prod.fst)
  | [], st, _ => by simp [assignBucket]
  | p :: bucket, st, h => by
    have h1 := mem_allTenants_bucketStep st p h x
    have h2 := mem_allTenants_assignBucket x bucket (bucketStep st p) (bucketStep_ne_nil p h)
    have hstep : assignBucket (p :: bucket) st = assignBucket bucket (bucketStep st p) := rfl
    rw [hstep, h2, h1]
    simp only [List.map_cons, List.mem_cons]
    tauto

theorem assignBucket_map_fst (bucket : List (Nat × ℚ)) :
    ∀ st : List (String × (List Nat × ℚ)),
      (assignBucket bucket st).map Prod.fst = st.map Prod.fst := by
  induction bucket with
  | nil => intro st; rfl
  | cons p bucket ih =>
    intro st
    have hstep : assignBucket (p :: bucket) st = assignBucket bucket (bucketStep st p) := rfl
    rw [hstep, ih (bucketStep st p), bucketStep_map_fst]

theorem assignBucket_ne_nil (bucket : List (Nat × ℚ)) {st : List (String × (List Nat × ℚ))}
    (h : st ≠ []) : assignBucket bucket st ≠ [] := by
  intro h0
  apply h
  have hmap := assignBucket_map_fst bucket st
  rw [h0] at hmap
  exact List.map_eq_nil_iff.mp hmap.symm

theorem mem_insertDescByScore (x y : Nat × ℚ) (l : List (Nat × ℚ)) :
    x ∈ insertDescByScore y l ↔ x = y ∨ x ∈ l := by
  induction l with
  | nil => simp [insertDescByScore]
  | cons z zs ih =>
    by_cases h : y.2 < z.2
    · simp only [insertDescByScore, if_pos h, List.mem_cons, ih]
      tauto
    · simp only [insertDescByScore, if_neg h, List.mem_cons]

theorem mem_sortDescByScore (x : Nat × ℚ) (l : List (Nat × ℚ)) :
    x ∈ sortDescByScore l ↔ x ∈ l := by
  induction l with
  | nil => simp [sortDescByScore]
  | cons y ys ih => simp [sortDescByScore, mem_insertDescByScore, ih]

theorem lookupA_tenant_fold_isSome (wid : String) :
    ∀ (l : List Nat) (acc : List (Nat × TenantAssignment)) (x : Nat),
      (lookupA (l.foldl (fun acc t =>
          insertA acc t (TenantAssignment.new t wid AssignmentReason.LoadRebalance)) acc)
        x).isSome = true ↔ x ∈ l ∨ (lookupA acc x).isSome = true
  | [], acc, x => by simp
  | t :: l, acc, x => by
    have ih := lookupA_tenant_fold_isSome wid l
      (insertA acc t (TenantAssignment.new t wid AssignmentReason.LoadRebalance)) x
    simp only [List.foldl_cons] at ih ⊢
    rw [ih]
    by_cases h : x = t
    · subst h
      simp [lookupA_insertA_self]
    · rw [lookupA_insertA_ne acc t x _ h]
      simp only [List.mem_cons]
      tauto

theorem lookupA_dist_fold_isSome :
    ∀ (dist : List (String × List Nat)) (acc : List (Nat × TenantAssignment)) (x : Nat),
      (lookupA (dist.foldl (fun acc wp =>
          wp.2.foldl (fun acc t =>
            insertA acc t (TenantAssignment.new t wp.1 AssignmentReason.LoadRebalance)) acc)
          acc) x).isSome = true ↔
        (∃ wp ∈ dist, x ∈ wp.2) ∨ (lookupA acc x).isSome = true
  | [], acc, x => by simp
  | wp :: dist, acc, x => by
    have ih := lookupA_dist_fold_isSome dist
      (wp.2.foldl (fun acc t =>
        insertA acc t (TenantAssignment.new t wp.1 AssignmentReason.LoadRebalance)) acc) x
    simp only [List.foldl_cons] at ih ⊢
    rw [ih, lookupA_tenant_fold_isSome wp.1 wp.2 acc x]
    simp only [List.mem_cons]
    constructor
    · rintro (h | (h | h))
      · rcases h with ⟨w, hw, hx⟩
        exact Or.inl ⟨w, Or.inr hw, hx⟩
      · exact Or.inl ⟨wp, Or.inl rfl, h⟩
      · exact Or.inr h
    · rintro (⟨w, hw | hw, hx⟩ | h)
      · subst hw
        exact Or.inr (Or.inl hx)
      · exact Or.inl ⟨w, hw, hx⟩
      · exact Or.inr (Or.inr h)

theorem allTenants_rebalanceInit (lb : LoadBalancer) : allTenants (rebalanceInit lb) = [] := by
  unfold allTenants rebalanceInit
  induction lb.worker_loads with
  | nil => rfl
  | cons w ws ih => simp [ih]

theorem bucket_partition (lb : LoadBalancer) (x : Nat) :
    (x ∈ (highBucket lb).map Prod.fst ∨ x ∈ (mediumBucket lb).map Prod.fst ∨
      x ∈ (lowBucket lb).map Prod.fst) ↔ x ∈ (scoredTenants lb).map Prod.fst := by
  simp only [highBucket, mediumBucket, lowBucket, List.mem_map, mem_sortDescByScore,
    List.mem_filter, decide_eq_true_eq]
  constructor
  · rintro (⟨p, ⟨hp, _⟩, hx⟩ | ⟨p, ⟨hp, _⟩, hx⟩ | ⟨p, ⟨hp, _⟩, hx⟩) <;> exact ⟨p, hp, hx⟩
  · rintro ⟨p, hp, hx⟩
    by_cases h7 : p.2 > 0.7
    · exact Or.inl ⟨p, ⟨hp, h7⟩, hx⟩
    · by_cases h3 : p.2 > 0.3
      · exact Or.inr (Or.inl ⟨p, ⟨hp, ⟨h7, h3⟩⟩, hx⟩)
      · exact Or.inr (Or.inr ⟨p, ⟨hp, ⟨h7, h3⟩⟩, hx⟩)

/-- C10: with a non-empty worker registry, `rebalance` rebuilds the
assignments table solely from the tenant-metrics table — afterwards a tenant
holds an assignment iff it has a metrics entry, so a previously assigned
tenant without metrics loses its assignment. -/
theorem C10_rebalance_assignments_iff_metrics (lb : LoadBalancer) (t : Nat)
    (h : lb.worker_loads ≠ []) :
    ((lookupA (lb.rebalance).2.assignments t).isSome = true ↔
      (lookupA lb.tenant_metrics t).isSome = true) ∧
    ((lb.rebalance).2.get_worker_for_tenant t = none ↔
      lookupA lb.tenant_metrics t = none) := by
  have hne : lb.worker_loads.isEmpty = false := by
    cases hw : lb.worker_loads with
    | nil => exact absurd hw h
    | cons y ys => rfl
  have hinit : rebalanceInit lb ≠ [] := by
    unfold rebalanceInit
    cases hw : lb.worker_loads with
    | nil => exact absurd hw h
    | cons y ys => simp
  have hassign : (lb.rebalance).2.assignments = rebalanceAssignments lb := by
    unfold LoadBalancer.rebalance
    rw [hne]
    rfl
  have hmain : (lookupA (lb.rebalance).2.assignments t).isSome = true ↔
      (lookupA lb.tenant_metrics t).isSome = true := by
    rw [hassign]
    unfold rebalanceAssignments
    rw [lookupA_dist_fold_isSome (rebalanceDist lb) [] t]
    have hdist : (∃ wp ∈ rebalanceDist lb, t ∈ wp.2) ↔ t ∈ allTenants (rebalanceState lb) := by
      rw [mem_allTenants_iff]
      unfold rebalanceDist
      simp [List.mem_map]
    have hstate : t ∈ allTenants (rebalanceState lb) ↔
        t ∈ (scoredTenants lb).map Prod.fst := by
      unfold rebalanceState
      rw [mem_allTenants_assignBucket t (lowBucket lb) _
          (assignBucket_ne_nil _ (assignBucket_ne_nil _ hinit)),
        mem_allTenants_assignBucket t (mediumBucket lb) _ (assignBucket_ne_nil _ hinit),
        mem_allTenants_assignBucket t (highBucket lb) _ hinit,
        allTenants_rebalanceInit]
      rw [← bucket_partition lb t]
      simp only [List.not_mem_nil, false_or]
      tauto
    have hscored : (scoredTenants lb).map Prod.fst = lb.tenant_metrics.map Prod.fst := by
      unfold scoredTenants
      rw [List.map_map]
      rfl
    rw [hdist, hstate, hscored]
    simp only [lookupA, Option.isSome_none, Bool.false_eq_true, or_false]
    exact (lookupA_isSome_iff_mem lb.tenant_metrics t).symm
  refine ⟨hmain, ?_⟩
  unfold LoadBalancer.get_worker_for_tenant
  rw [Option.map_eq_none']
  constructor
  · intro hnone
    by_contra hmet
    have h2 : (lookupA lb.tenant_metrics t).isSome = true :=
      Option.isSome_iff_ne_none.mpr hmet
    have h3 := hmain.mpr h2
    rw [Option.isSome_iff_ne_none] at h3
    exact h3 hnone
  · intro hnone
    by_contra hasgn
    have h2 : (lookupA (lb.rebalance).2.assignments t).isSome = true :=
      Option.isSome_iff_ne_none.mpr hasgn
    have h3 := hmain.mp h2
    rw [Option.isSome_iff_ne_none] at h3
    exact h3 hnone

/-- Witness for C10 at the S4 state: tenant `7` was never given metrics, so
after `rebalance` it holds no assignment. -/
theorem C10_rebalance_assignments_iff_metrics_witness :
    (lbS4.rebalance).2.get_worker_for_tenant 7 = none := by
  have h := (C10_rebalance_assignments_iff_metrics lbS4 7
    (by with_unfolding_all decide)).2
  exact h.mpr (by with_unfolding_all decide)

/-! ### `assign_tenant` lemmas (C4, C7) -/

theorem round_robin_empty (lb : LoadBalancer) (h : lb.worker_loads = []) :
    lb.round_robin_assignment = .error "No workers available" := by
  unfold LoadBalancer.round_robin_assignment
  rw [h]
  rfl

theorem least_loaded_empty (lb : LoadBalancer) (h : lb.worker_loads = []) :
    lb.least_loaded_assignment = .error "No workers available" := by
  unfold LoadBalancer.least_loaded_assignment
  rw [h]
  rfl

theorem consistent_hash_empty (hash : String → Nat) (lb : LoadBalancer) (t : Nat)
    (h : lb.worker_loads = []) :
    lb.consistent_hash_assignment hash t = .error "No workers available" := by
  unfold LoadBalancer.consistent_hash_assignment
  rw [h]
  cases lookupA lb.tenant_worker_map (toString t) <;> simp [lookupA]

theorem activity_based_empty (hash : String → Nat) (lb : LoadBalancer) (t : Nat)
    (h : lb.worker_loads = []) :
    lb.activity_based_assignment hash t = .error "No workers available" := by
  unfold LoadBalancer.activity_based_assignment
  cases hm : lookupA lb.tenant_metrics t with
  | none => exact consistent_hash_empty hash lb t h
  | some m =>
    by_cases hs : m.activity_score > 0.7
    · simp [hs, least_loaded_empty lb h]
    · simp [hs, consistent_hash_empty hash lb t h]

theorem round_robin_mem (lb : LoadBalancer) (h : lb.worker_loads ≠ []) :
    ∃ w, lb.round_robin_assignment = .ok w ∧ w ∈ lb.worker_loads.map Prod.fst := by
  unfold LoadBalancer.round_robin_assignment
  obtain ⟨p, hp, hmem⟩ :=
    minByKeyFirst_exists (fun p => p.2.tenant_count) lb.worker_loads h
  rw [hp]
  exact ⟨p.1, rfl, List.mem_map_of_mem _ hmem⟩

theorem least_loaded_mem (lb : LoadBalancer) (h : lb.worker_loads ≠ []) :
    ∃ w, lb.least_loaded_assignment = .ok w ∧ w ∈ lb.worker_loads.map Prod.fst := by
  unfold LoadBalancer.least_loaded_assignment
  obtain ⟨p, hp, hmem⟩ := minByKeyFirst_exists (fun p =>
    f64TruncToInt (p.2.cpu_usage * 100) + f64TruncToInt (p.2.memory_usage * 100)
      + (p.2.tenant_count : ℤ)) lb.worker_loads h
  rw [hp]
  exact ⟨p.1, rfl, List.mem_map_of_mem _ hmem⟩

theorem consistent_hash_fallback_mem (hash : String → Nat) (lb : LoadBalancer) (t : Nat)
    (h : lb.worker_loads ≠ []) :
    (lb.worker_loads.map Prod.fst).getD
        (hash (toString t) % (lb.worker_loads.map Prod.fst).length) ""
      ∈ lb.worker_loads.map Prod.fst := by
  have hlen : 0 < (lb.worker_loads.map Prod.fst).length := by
    cases hw : lb.worker_loads with
    | nil => exact absurd hw h
    | cons y ys => simp
  have hidx : hash (toString t) % (lb.worker_loads.map Prod.fst).length
      < (lb.worker_loads.map Prod.fst).length := Nat.mod_lt _ hlen
  rw [List.getD_eq_getElem (lb.worker_loads.map Prod.fst) "" hidx]
  exact List.getElem_mem hidx

theorem consistent_hash_mem (hash : String → Nat) (lb : LoadBalancer) (t : Nat)
    (h : lb.worker_loads ≠ []) :
    ∃ w, lb.consistent_hash_assignment hash t = .ok w ∧
      w ∈ lb.worker_loads.map Prod.fst := by
  have hemp : (lb.worker_loads.map Prod.fst).isEmpty = false := by
    cases hw : lb.worker_loads with
    | nil => exact absurd hw h
    | cons y ys => rfl
  unfold LoadBalancer.consistent_hash_assignment
  cases hm : lookupA lb.tenant_worker_map (toString t) with
  | some w0 =>
    cases hreg : (lookupA lb.worker_loads w0).isSome with
    | true =>
      refine ⟨w0, ?_, (lookupA_isSome_iff_mem _ _).mp hreg⟩
      simp [hm, hreg]
    | false =>
      refine ⟨_, ?_, consistent_hash_fallback_mem hash lb t h⟩
      simp [hm, hreg, hemp]
  | none =>
    refine ⟨_, ?_, consistent_hash_fallback_mem hash lb t h⟩
    simp [hm, hemp]

theorem activity_based_mem (hash : String → Nat) (lb : LoadBalancer) (t : Nat)
    (h : lb.worker_loads ≠ []) :
    ∃ w, lb.activity_based_assignment hash t = .ok w ∧
      w ∈ lb.worker_loads.map Prod.fst := by
  unfold LoadBalancer.activity_based_assignment
  cases hm : lookupA lb.tenant_metrics t with
  | none => exact consistent_hash_mem hash lb t h
  | some m =>
    by_cases hs : m.activity_score > 0.7
    · simpa [hs] using least_loaded_mem lb h
    · simpa [hs] using consistent_hash_mem hash lb t h

theorem pickWorker_empty (hash : String → Nat) (lb : LoadBalancer) (t : Nat)
    (h : lb.worker_loads = []) :
    lb.pickWorker hash t = .error "No workers available" := by
  unfold LoadBalancer.pickWorker
  cases lb.config.strategy
  · exact round_robin_empty lb h
  · exact least_loaded_empty lb h
  · exact consistent_hash_empty hash lb t h
  · exact activity_based_empty hash lb t h

theorem pickWorker_mem (hash : String → Nat) (lb : LoadBalancer) (t : Nat)
    (h : lb.worker_loads ≠ []) :
    ∃ w, lb.pickWorker hash t = .ok w ∧ w ∈ lb.worker_loads.map Prod.fst := by
  unfold LoadBalancer.pickWorker
  cases lb.config.strategy
  · exact round_robin_mem lb h
  · exact least_loaded_mem lb h
  · exact consistent_hash_mem hash lb t h
  · exact activity_based_mem hash lb t h

/-- C7: under every strategy, `assign_tenant` fails with the
`NoWorkersAvailable` error when the worker registry is empty — leaving the
state, in particular the assignments table, untouched — and returns a
registered worker's id when the registry is non-empty. -/
theorem C7_assign_tenant_worker_availability (hash : String → Nat) (lb : LoadBalancer)
    (t : Nat) :
    (lb.worker_loads = [] →
      (lb.assign_tenant hash t).1 = .error "No workers available" ∧
      (lb.assign_tenant hash t).2 = lb ∧
      (lb.assign_tenant hash t).2.get_worker_for_tenant t = lb.get_worker_for_tenant t) ∧
    (lb.worker_loads ≠ [] →
      ∃ w, (lb.assign_tenant hash t).1 = .ok w ∧ w ∈ lb.worker_loads.map Prod.fst) := by
  constructor
  · intro h
    have hp := pickWorker_empty hash lb t h
    unfold LoadBalancer.assign_tenant
    rw [hp]
    exact ⟨rfl, rfl, rfl⟩
  · intro h
    obtain ⟨w, hw, hmem⟩ := pickWorker_mem hash lb t h
    unfold LoadBalancer.assign_tenant
    rw [hw]
    exact ⟨w, rfl, hmem⟩

/-- The load balancer used to witness C7: an empty registry under the
`RoundRobin` strategy. -/
def lbEmpty : LoadBalancer :=
  { assignments := [], worker_loads := [], tenant_metrics := [], tenant_worker_map := []
    config :=
      { strategy := .RoundRobin, max_tenants_per_worker := 50, rebalance_threshold := 0.2 } }

/-- Witness for C7: with no registered workers, `assign_tenant` fails with
`NoWorkersAvailable` and the assignments table is unchanged. -/
theorem C7_assign_tenant_worker_availability_witness :
    (lbEmpty.assign_tenant (fun _ => 0) 5).1 = .error "No workers available" ∧
    (lbEmpty.assign_tenant (fun _ => 0) 5).2 = lbEmpty := by
  have h := (C7_assign_tenant_worker_availability (fun _ => 0) lbEmpty 5).1 rfl
  exact ⟨h.1, h.2.1⟩

/-! ### Consistent hashing (C4) -/

instance {ε α : Type} [DecidableEq ε] [DecidableEq α] : DecidableEq (Except ε α) :=
  fun a b =>
    match a, b with
    | .ok x, .ok y => if h : x = y then isTrue (by rw [h]) else isFalse (by simp [h])
    | .error x, .error y => if h : x = y then isTrue (by rw [h]) else isFalse (by simp [h])
    | .ok _, .error _ => isFalse (by simp)
    | .error _, .ok _ => isFalse (by simp)

theorem consistent_hash_congr (hash : String → Nat) (t : Nat) (lb lb2 : LoadBalancer)
    (hw : lb2.worker_loads.map Prod.fst = lb.worker_loads.map Prod.fst)
    (hm : lb2.tenant_worker_map = lb.tenant_worker_map) :
    lb2.consistent_hash_assignment hash t = lb.consistent_hash_assignment hash t := by
  have hlen : lb2.worker_loads.length = lb.worker_loads.length := by
    have := congrArg List.length hw
    simpa using this
  have hsome : ∀ w, (lookupA lb2.worker_loads w).isSome
      = (lookupA lb.worker_loads w).isSome := by
    intro w
    rw [Bool.eq_iff_iff, lookupA_isSome_iff_mem, lookupA_isSome_iff_mem, hw]
  unfold LoadBalancer.consistent_hash_assignment
  rw [hm, hw]
  cases lookupA lb.tenant_worker_map (toString t) with
  | none => rfl
  | some w0 => simp only [hsome w0]

theorem assign_tenant_fst (hash : String → Nat) (lb : LoadBalancer) (t : Nat) :
    (lb.assign_tenant hash t).1 = lb.pickWorker hash t := by
  unfold LoadBalancer.assign_tenant
  cases lb.pickWorker hash t <;> rfl

theorem assign_tenant_ok_state (hash : String → Nat) (lb : LoadBalancer) (t : Nat)
    (w : String) (lb' : LoadBalancer) (h : lb.assign_tenant hash t = (.ok w, lb')) :
    lb'.tenant_worker_map = lb.tenant_worker_map ∧ lb'.config = lb.config ∧
      lb'.worker_loads.map Prod.fst = lb.worker_loads.map Prod.fst := by
  unfold LoadBalancer.assign_tenant at h
  cases hp : lb.pickWorker hash t with
  | error e => rw [hp] at h; exact absurd (congrArg Prod.fst h) (by simp)
  | ok w0 =>
    rw [hp] at h
    have h2 := congrArg Prod.snd h
    simp only at h2
    rw [← h2]
    exact ⟨rfl, rfl, updateA_map_fst _ _ _⟩

/-- C4 (amended): under the `ConsistentHashing` strategy, `assign_tenant`
returns the affinity-mapped worker whenever the affinity map names a
registered worker; otherwise it indexes the registry's key list **in map
iteration order — the source never sorts it** — by the 64-bit hash of the
tenant id's string form modulo the list length.  A successful assignment
records the assignment but **never populates the affinity map**; a repeated
`assign_tenant` with the unchanged worker set nevertheless returns the same
worker, because the hash computation is deterministic over the unchanged
registry. -/
theorem C4_consistent_hash_assignment_amended (hash : String → Nat) (lb : LoadBalancer)
    (t : Nat) (hstrat : lb.config.strategy = .ConsistentHashing) :
    (∀ w, lookupA lb.tenant_worker_map (toString t) = some w →
      (lookupA lb.worker_loads w).isSome = true →
      (lb.assign_tenant hash t).1 = .ok w) ∧
    (lookupA lb.tenant_worker_map (toString t) = none → lb.worker_loads ≠ [] →
      (lb.assign_tenant hash t).1 = .ok ((lb.worker_loads.map Prod.fst).getD
        (hash (toString t) % (lb.worker_loads.map Prod.fst).length) "")) ∧
    (∀ w lb', lb.assign_tenant hash t = (.ok w, lb') →
      lb'.tenant_worker_map = lb.tenant_worker_map) ∧
    (∀ w lb', lb.assign_tenant hash t = (.ok w, lb') →
      (lb'.assign_tenant hash t).1 = .ok w) := by
  have hpick : lb.pickWorker hash t = lb.consistent_hash_assignment hash t := by
    unfold LoadBalancer.pickWorker
    rw [hstrat]
  refine ⟨?_, ?_, ?_, ?_⟩
  · intro w hmap hreg
    rw [assign_tenant_fst, hpick]
    unfold LoadBalancer.consistent_hash_assignment
    simp [hmap, hreg]
  · intro hmap hne
    have hemp : (lb.worker_loads.map Prod.fst).isEmpty = false := by
      cases hw : lb.worker_loads with
      | nil => exact absurd hw hne
      | cons y ys => rfl
    rw [assign_tenant_fst, hpick]
    unfold LoadBalancer.consistent_hash_assignment
    simp [hmap, hemp]
  · intro w lb' h
    exact (assign_tenant_ok_state hash lb t w lb' h).1
  · intro w lb' h
    obtain ⟨hm, hc, hw⟩ := assign_tenant_ok_state hash lb t w lb' h
    have hfst : lb.pickWorker hash t = .ok w := by
      rw [← assign_tenant_fst hash lb t, h]
    have hpick' : lb'.pickWorker hash t = lb'.consistent_hash_assignment hash t := by
      unfold LoadBalancer.pickWorker
      rw [hc, hstrat]
    rw [assign_tenant_fst, hpick', consistent_hash_congr hash t lb lb' hw hm,
      ← hpick, hfst]

/-- The load balancer used to refute and witness C4: two workers registered
in the order `"b"`, `"a"` (so the sorted key list `["a", "b"]` differs from
the registry's iteration order), strategy `ConsistentHashing`, empty affinity
map. -/
def lbHashPair : LoadBalancer :=
  { assignments := [], worker_loads := [("b", freshWorkerMetrics "b"),
      ("a", freshWorkerMetrics "a")], tenant_metrics := [], tenant_worker_map := []
    config :=
      { strategy := .ConsistentHashing, max_tenants_per_worker := 50,
        rebalance_threshold := 0.2 } }

/-- A stand-in for the unspecified `DefaultHasher`: every string hashes to 0.
The refuted facts below hold for every hash function; a concrete one is fixed
so the claim can be evaluated. -/
def hashZero : String → Nat := fun _ => 0

/-- C4 counterexample: with registry iteration order `["b", "a"]` and hash 0,
`assign_tenant` returns `"b"` — the worker at index 0 of the *unsorted* key
list — not `"a"`, the worker at index `hash % 2 = 0` of the sorted list
`["a", "b"]`; and the successful assignment leaves the affinity map empty
instead of populating the tenant's entry. -/
theorem C4_consistent_hash_assignment_counterexample :
    (lbHashPair.assign_tenant hashZero 7).1 = .ok "b" ∧
    (lbHashPair.assign_tenant hashZero 7).1 ≠ .ok "a" ∧
    ["a", "b"].getD (hashZero (toString (7 : Nat)) % 2) "" = "a" ∧
    (lbHashPair.assign_tenant hashZero 7).2.tenant_worker_map = [] := by
  refine ⟨by with_unfolding_all decide, by with_unfolding_all decide,
    by with_unfolding_all decide, by with_unfolding_all decide⟩

/-- Witness for C4 (amended) at `lbHashPair`, tenant 7: the hash-indexed
branch returns the worker at index `0 % 2` of the iteration-order key list,
namely `"b"`. -/
theorem C4_consistent_hash_assignment_amended_witness :
    (lbHashPair.assign_tenant hashZero 7).1 = .ok "b" := by
  have h := (C4_consistent_hash_assignment_amended hashZero lbHashPair 7 rfl).2.1
    (by with_unfolding_all decide) (by with_unfolding_all decide)
  rw [h]
  with_unfolding_all decide

/-! ## `src/services/shared_block_watcher.rs`

The RPC client is modelled as oracles indexed by the retry call number: the
watcher's repeated invocations of the same closure become successive indices.
Blocks are represented by their heights. -/

/-- `SharedBlockWatcherConfig`. -/
structure SharedBlockWatcherConfig where
  channel_buffer_size : Nat
  max_blocks_per_fetch : Nat
  retry_attempts : Nat
  retry_delay_ms : Nat
deriving Repr, DecidableEq

/-- What one `retry_with_backoff` run did: its result, how many calls to the
closure it made, and the sleeps (in ms) performed after failures, in order. -/
structure RetryTrace (α : Type) where
  result : Except String α
  calls : Nat
  delays : List Nat
deriving Repr, DecidableEq

/-- The final iteration of `retry_with_backoff`'s loop: a success returns the
value, a failure trips the post-increment guard `attempt >= max_attempts` and
returns the `Failed after …` error. -/
def retryLast {α : Type} (f : Nat → Except String α) (maxAttempts attempt : Nat) :
    RetryTrace α :=
  match f attempt with
  | .ok v => ⟨.ok v, attempt + 1, []⟩
  | .error e =>
    ⟨.error ("Failed after " ++ toString maxAttempts ++ " attempts: " ++ e),
      attempt + 1, []⟩

/-- The loop of `retry_with_backoff`.  `attempt` is the source's failure
counter; `remaining` equals `max_attempts - attempt` at every call, so the
source's post-increment guard `attempt >= max_attempts` is the test
`remaining ≤ 1`, and the recursion is structural in `remaining`. -/
def retryGo {α : Type} (f : Nat → Except String α) (maxAttempts baseDelayMs : Nat) :
    Nat → Nat → RetryTrace α
  | attempt, remaining' + 2 =>
    match f attempt with
    | .ok v => ⟨.ok v, attempt + 1, []⟩
    | .error _ =>
      let d := baseDelayMs * 2 ^ (attempt + 1 - 1)
      let rest := retryGo f maxAttempts baseDelayMs (attempt + 1) (remaining' + 1)
      ⟨rest.result, rest.calls, d :: rest.delays⟩
  | attempt, 1 => retryLast f maxAttempts attempt
  | attempt, 0 => retryLast f maxAttempts attempt

/-- `retry_with_backoff`. -/
def retry_with_backoff {α : Type} (f : Nat → Except String α)
    (max_attempts base_delay_ms : Nat) : RetryTrace α :=
  retryGo f max_attempts base_delay_ms 0 max_attempts

theorem retryLast_calls {α : Type} (f : Nat → Except String α) (maxA attempt : Nat) :
    (retryLast f maxA attempt).calls = attempt + 1 := by
  unfold retryLast
  cases f attempt <;> rfl

theorem retryGo_calls_le {α : Type} (f : Nat → Except String α) (maxA base : Nat) :
    ∀ (remaining attempt : Nat),
      (retryGo f maxA base attempt remaining).calls ≤ attempt + max remaining 1
  | 0, attempt => by
    rw [show retryGo f maxA base attempt 0 = retryLast f maxA attempt from rfl,
      retryLast_calls]
    omega
  | 1, attempt => by
    rw [show retryGo f maxA base attempt 1 = retryLast f maxA attempt from rfl,
      retryLast_calls]
    omega
  | remaining' + 2, attempt => by
    have ih := retryGo_calls_le f maxA base (remaining' + 1) (attempt + 1)
    unfold retryGo
    cases hf : f attempt with
    | ok v =>
      show attempt + 1 ≤ attempt + max (remaining' + 2) 1
      omega
    | error e =>
      show (retryGo f maxA base (attempt + 1) (remaining' + 1)).calls
        ≤ attempt + max (remaining' + 2) 1
      omega

theorem retryGo_fail_then_ok {α : Type} (f : Nat → Except String α) (maxA base : Nat) (v : α) :
    ∀ (m a remaining : Nat),
      (∀ i, i < m → (f (a + i)).isOk = false) → f (a + m) = .ok v →
      m + 1 ≤ remaining →
      retryGo f maxA base a remaining
        = ⟨.ok v, a + m + 1, (List.range m).map (fun k => base * 2 ^ (a + k))⟩
  | 0, a, remaining, hfail, hok, hrem => by
    rw [show a + 0 = a from rfl] at hok
    obtain ⟨r, hr⟩ : ∃ r, remaining = r + 2 ∨ remaining = 1 :=
      ⟨remaining - 2, by omega⟩
    rcases hr with hr | hr <;> subst hr
    · unfold retryGo
      rw [hok]
      simp
    · rw [show retryGo f maxA base a 1 = retryLast f maxA a from rfl]
      unfold retryLast
      rw [hok]
      simp
  | m' + 1, a, remaining, hfail, hok, hrem => by
    have h0 : (f a).isOk = false := by
      have := hfail 0 (Nat.succ_pos m')
      simpa using this
    obtain ⟨e, he⟩ : ∃ e, f a = .error e := by
      cases hf : f a with
      | ok v0 => rw [hf] at h0; simp [Except.isOk, Except.toBool] at h0
      | error e => exact ⟨e, rfl⟩
    obtain ⟨r, hr⟩ : ∃ r, remaining = r + 2 := ⟨remaining - 2, by omega⟩
    subst hr
    have ih := retryGo_fail_then_ok f maxA base v m' (a + 1) (r + 1)
      (fun i hi => by
        have := hfail (i + 1) (by omega)
        simpa [Nat.add_assoc, Nat.add_comm 1 i] using this)
      (by
        have : a + 1 + m' = a + (m' + 1) := by omega
        rw [this]
        exact hok)
      (by omega)
    unfold retryGo
    rw [he]
    simp only [ih, List.range_succ_eq_map, List.map_cons, List.map_map,
      RetryTrace.mk.injEq, List.cons.injEq]
    refine ⟨trivial, by omega, ?_, ?_⟩
    · have h1 : a + 1 - 1 = a + 0 := by omega
      rw [h1]
    · refine List.map_congr_left ?_
      intro k _
      simp only [Function.comp_apply]
      have h2 : a + 1 + k = a + (k + 1) := by omega
      rw [h2]

theorem retryLast_all_fail {α : Type} (f : Nat → Except String α) (maxA attempt : Nat)
    (hfail : ∀ i, (f i).isOk = false) :
    (retryLast f maxA attempt).result.isOk = false := by
  obtain ⟨e, he⟩ : ∃ e, f attempt = .error e := by
    cases hf : f attempt with
    | ok v0 => have := hfail attempt; rw [hf] at this; simp [Except.isOk, Except.toBool] at this
    | error e => exact ⟨e, rfl⟩
  unfold retryLast
  rw [he]
  rfl

theorem retryGo_all_fail {α : Type} (f : Nat → Except String α) (maxA base : Nat)
    (hfail : ∀ i, (f i).isOk = false) :
    ∀ (remaining attempt : Nat),
      (retryGo f maxA base attempt remaining).result.isOk = false
  | 0, attempt => retryLast_all_fail f maxA attempt hfail
  | 1, attempt => retryLast_all_fail f maxA attempt hfail
  | remaining' + 2, attempt => by
    obtain ⟨e, he⟩ : ∃ e, f attempt = .error e := by
      cases hf : f attempt with
      | ok v0 => have := hfail attempt; rw [hf] at this; simp [Except.isOk, Except.toBool] at this
      | error e => exact ⟨e, rfl⟩
    have ih := retryGo_all_fail f maxA base hfail (remaining' + 1) (attempt + 1)
    unfold retryGo
    rw [he]
    exact ih

/-- The observable effects of one `fetch_blocks_for_client` call: the return
value, `last_processed_block` after the call, the range passed to
`get_blocks` (when that call was reached), the broadcast range (when an event
was emitted), and all retry sleeps incurred. -/
structure FetchOutcome where
  ret : Except String Nat
  newLast : Nat
  fetched : Option (Nat × Nat)
  sent : Option (Nat × Nat)
  retryDelays : List Nat
deriving Repr, DecidableEq

/-- `fetch_blocks_for_client`.  `latestCalls i` is the result of the `i`-th
`get_latest_block_number` call of this iteration, `blockCalls s e i` the
result of the `i`-th `get_blocks(s, Some(e))` call; `saturating_sub` is `Nat`
subtraction. -/
def fetch_blocks_for_client
    (latestCalls : Nat → Except String Nat)
    (blockCalls : Nat → Nat → Nat → Except String (List Nat))
    (confirmation_blocks last_processed_block : Nat)
    (config : SharedBlockWatcherConfig) : FetchOutcome :=
  let rlatest := retry_with_backoff latestCalls config.retry_attempts config.retry_delay_ms
  match rlatest.result with
  | .error e => ⟨.error e, last_processed_block, none, none, rlatest.delays⟩
  | .ok latest_block =>
    let latest_confirmed_block := latest_block - confirmation_blocks
    let start_block :=
      if last_processed_block == 0 then latest_confirmed_block
      else last_processed_block + 1
    if start_block > latest_confirmed_block then
      ⟨.ok 0, last_processed_block, none, none, rlatest.delays⟩
    else
      let end_block :=
        min latest_confirmed_block (start_block + config.max_blocks_per_fetch - 1)
      let rblocks := retry_with_backoff (blockCalls start_block end_block)
        config.retry_attempts config.retry_delay_ms
      match rblocks.result with
      | .error e =>
        ⟨.error e, last_processed_block, some (start_block, end_block), none,
          rlatest.delays ++ rblocks.delays⟩
      | .ok blocks =>
        if blocks.isEmpty then
          ⟨.ok 0, last_processed_block, some (start_block, end_block), none,
            rlatest.delays ++ rblocks.delays⟩
        else
          ⟨.ok blocks.length, end_block, some (start_block, end_block),
            some (start_block, end_block), rlatest.delays ++ rblocks.delays⟩

theorem retry_first_ok {α : Type} (f : Nat → Except String α) (maxA base : Nat) (v : α)
    (h : f 0 = .ok v) : retry_with_backoff f maxA base = ⟨.ok v, 1, []⟩ := by
  unfold retry_with_backoff
  match maxA with
  | 0 =>
    unfold retryGo retryLast
    rw [h]
  | 1 =>
    unfold retryGo retryLast
    rw [h]
  | r + 2 =>
    unfold retryGo
    rw [h]

/-- C1: a scan iteration with a successfully fetched latest height `L`
computes `latest_confirmed = max(0, L − confirmation_blocks)` (as `Nat`
saturating subtraction); on cold start (`last_processed_block = 0`) it
requests exactly the single range `[latest_confirmed, latest_confirmed]`;
with a non-zero cursor it requests
`[last + 1, min(latest_confirmed, last + max_blocks_per_fetch)]`; and when
`last + 1 > latest_confirmed` it requests nothing, returns `Ok(0)` and leaves
the cursor unchanged. -/
theorem C1_scan_iteration_range
    (latestCalls : Nat → Except String Nat)
    (blockCalls : Nat → Nat → Nat → Except String (List Nat))
    (c last L : Nat) (cfg : SharedBlockWatcherConfig)
    (hM : 1 ≤ cfg.max_blocks_per_fetch)
    (hL : latestCalls 0 = .ok L) :
    (((L - c : Nat) : ℤ) = max 0 ((L : ℤ) - (c : ℤ))) ∧
    (last = 0 →
      (fetch_blocks_for_client latestCalls blockCalls c last cfg).fetched
        = some (L - c, L - c)) ∧
    (0 < last → last + 1 ≤ L - c →
      (fetch_blocks_for_client latestCalls blockCalls c last cfg).fetched
        = some (last + 1, min (L - c) (last + cfg.max_blocks_per_fetch))) ∧
    (0 < last → L - c < last + 1 →
      (fetch_blocks_for_client latestCalls blockCalls c last cfg).fetched = none ∧
      (fetch_blocks_for_client latestCalls blockCalls c last cfg).newLast = last ∧
      (fetch_blocks_for_client latestCalls blockCalls c last cfg).ret = Except.ok 0) := by
  have hr := retry_first_ok latestCalls cfg.retry_attempts cfg.retry_delay_ms L hL
  refine ⟨by omega, ?_, ?_, ?_⟩
  · intro h0
    subst h0
    unfold fetch_blocks_for_client
    rw [hr]
    dsimp only
    rw [show (if ((0 : Nat) == 0) = true then L - c else 0 + 1) = L - c by simp]
    rw [if_neg (lt_irrefl (L - c))]
    have hmin : min (L - c) (L - c + cfg.max_blocks_per_fetch - 1) = L - c :=
      min_eq_left (by omega)
    rw [hmin]
    cases (retry_with_backoff (blockCalls (L - c) (L - c)) cfg.retry_attempts
        cfg.retry_delay_ms).result with
    | error e => rfl
    | ok blocks =>
      dsimp only
      by_cases hb : blocks.isEmpty = true
      · rw [if_pos hb]
      · rw [if_neg hb]
  · intro hpos hle
    unfold fetch_blocks_for_client
    rw [hr]
    dsimp only
    have hbeq : (last == 0) = false := by
      simp only [beq_eq_false_iff_ne, ne_eq]
      omega
    simp only [hbeq, Bool.false_eq_true, if_false]
    rw [if_neg (by omega : ¬ last + 1 > L - c)]
    have harith :
        last + 1 + cfg.max_blocks_per_fetch - 1 = last + cfg.max_blocks_per_fetch := by
      omega
    rw [harith]
    cases (retry_with_backoff (blockCalls (last + 1)
        (min (L - c) (last + cfg.max_blocks_per_fetch)))
        cfg.retry_attempts cfg.retry_delay_ms).result with
    | error e => rfl
    | ok blocks =>
      dsimp only
      by_cases hb : blocks.isEmpty = true
      · rw [if_pos hb]
      · rw [if_neg hb]
  · intro hpos hgt
    unfold fetch_blocks_for_client
    rw [hr]
    dsimp only
    have hbeq : (last == 0) = false := by
      simp only [beq_eq_false_iff_ne, ne_eq]
      omega
    simp only [hbeq, Bool.false_eq_true, if_false]
    rw [if_pos (by omega : last + 1 > L - c)]
    exact ⟨rfl, rfl, rfl⟩

/-- Witness for C1: the S1 cold start — `latest = 100`,
`confirmation_blocks = 2`, `last_processed_block = 0` — requests exactly the
range `[98, 98]`. -/
theorem C1_scan_iteration_range_witness :
    (fetch_blocks_for_client (fun _ => .ok 100) (fun _ _ _ => .ok [98]) 2 0
      ⟨1000, 100, 3, 1000⟩).fetched = some (98, 98) := by
  have h := (C1_scan_iteration_range (fun _ => .ok 100) (fun _ _ _ => .ok [98]) 2 0 100
    ⟨1000, 100, 3, 1000⟩ (by norm_num) rfl).2.1 rfl
  exact h

/-- C5: `retry_with_backoff` makes at most `retry_attempts` calls; a run with
`m` failures followed by a success performs exactly the sleeps
`base_delay_ms · 2^(k−1)` for the failures `k = 1..m`; and when every attempt
fails, `fetch_blocks_for_client` returns an error and leaves
`last_processed_block` unchanged — also when only the `get_blocks` retries
fail. -/
theorem C5_retry_exponential_backoff (f latestCalls : Nat → Except String Nat)
    (blockCalls : Nat → Nat → Nat → Except String (List Nat))
    (maxA base c last m v : Nat) (cfg : SharedBlockWatcherConfig)
    (hA : 1 ≤ maxA) :
    ((retry_with_backoff f maxA base).calls ≤ maxA) ∧
    ((∀ i, i < m → (f i).isOk = false) → f m = .ok v → m + 1 ≤ maxA →
      retry_with_backoff f maxA base
        = ⟨.ok v, m + 1, (List.range m).map (fun k => base * 2 ^ k)⟩) ∧
    ((∀ i, (latestCalls i).isOk = false) →
      (fetch_blocks_for_client latestCalls blockCalls c last cfg).ret.isOk = false ∧
      (fetch_blocks_for_client latestCalls blockCalls c last cfg).newLast = last) ∧
    ((∀ s e i, (blockCalls s e i).isOk = false) →
      (fetch_blocks_for_client latestCalls blockCalls c last cfg).newLast = last) := by
  refine ⟨?_, ?_, ?_, ?_⟩
  · have h := retryGo_calls_le f maxA base maxA 0
    unfold retry_with_backoff
    omega
  · intro hfail hok hle
    have h := retryGo_fail_then_ok f maxA base v m 0 maxA
      (fun i hi => by simpa using hfail i hi) (by simpa using hok) hle
    unfold retry_with_backoff
    rw [h]
    simp
  · intro hfail
    have hres : (retry_with_backoff latestCalls cfg.retry_attempts
        cfg.retry_delay_ms).result.isOk = false :=
      retryGo_all_fail latestCalls cfg.retry_attempts cfg.retry_delay_ms hfail
        cfg.retry_attempts 0
    unfold fetch_blocks_for_client
    dsimp only
    cases hres' : (retry_with_backoff latestCalls cfg.retry_attempts
        cfg.retry_delay_ms).result with
    | ok v0 =>
      rw [hres'] at hres
      simp [Except.isOk, Except.toBool] at hres
    | error e => exact ⟨rfl, rfl⟩
  · intro hfail
    unfold fetch_blocks_for_client
    dsimp only
    cases hres' : (retry_with_backoff latestCalls cfg.retry_attempts
        cfg.retry_delay_ms).result with
    | error e => rfl
    | ok L =>
      dsimp only
      by_cases hstart : (if (last == 0) = true then L - c else last + 1) > L - c
      · rw [if_pos hstart]
      · rw [if_neg hstart]
        have hres2 : (retry_with_backoff
            (blockCalls (if (last == 0) = true then L - c else last + 1)
              (min (L - c) ((if (last == 0) = true then L - c else last + 1)
                + cfg.max_blocks_per_fetch - 1)))
            cfg.retry_attempts cfg.retry_delay_ms).result.isOk = false := by
          unfold retry_with_backoff
          exact retryGo_all_fail
            (blockCalls (if (last == 0) = true then L - c else last + 1)
              (min (L - c) ((if (last == 0) = true then L - c else last + 1)
                + cfg.max_blocks_per_fetch - 1)))
            cfg.retry_attempts cfg.retry_delay_ms
            (fun i => hfail _ _ i) cfg.retry_attempts 0
        cases hres2' : (retry_with_backoff
            (blockCalls (if (last == 0) = true then L - c else last + 1)
              (min (L - c) ((if (last == 0) = true then L - c else last + 1)
                + cfg.max_blocks_per_fetch - 1)))
            cfg.retry_attempts cfg.retry_delay_ms).result with
        | ok blocks =>
          rw [hres2'] at hres2
          simp [Except.isOk, Except.toBool] at hres2
        | error e => rfl

/-- The flapping RPC of scenario S3: the first two calls fail, the third
returns height 105. -/
def flapRpc : Nat → Except String Nat :=
  fun i => if i < 2 then .error "rpc flap" else .ok 105

/-- Witness for C5: scenario S3 — `retry_attempts = 3`,
`retry_delay_ms = 10`, two failures then success — sleeps exactly 10 ms and
20 ms, a total retry delay of 30 ms, in 3 calls. -/
theorem C5_retry_exponential_backoff_witness :
    retry_with_backoff flapRpc 3 10 = ⟨.ok 105, 3, [10, 20]⟩ ∧
    (retry_with_backoff flapRpc 3 10).delays.sum = 30 := by
  have h := (C5_retry_exponential_backoff flapRpc (fun _ => .error "x")
    (fun _ _ _ => .error "x") 3 10 0 0 2 105 ⟨1000, 100, 3, 10⟩ (by norm_num)).2.1
    (by decide) (by decide) (by norm_num)
  constructor
  · rw [h]
    rfl
  · rw [h]
    rfl

/-! ## `src/services/block_cache.rs` -/

/-- The outcome of a cache read: a hit, a miss (`Ok(None)`), or a
communication error. -/
inductive CacheGet (α : Type) where
  | hit (v : α)
  | miss
  | err (e : String)
deriving Repr, DecidableEq

/-- The shared shape of `CachedBlockClient::get_blocks` and
`CachedBlockClient::get_latest_block_number`: consult the cache first and
return a hit without touching the RPC client; on a miss or a cache error fall
through to the inner client, propagating only the RPC error; attempt the
cache write after a successful fetch and swallow its failure.  Returns the
result together with whether the inner RPC client was consulted. -/
def cachedFetch {α : Type} (cacheGet : CacheGet α) (putFails : Bool)
    (rpc : Except String α) : Except String α × Bool :=
  match cacheGet with
  | .hit v => (.ok v, false)
  | .miss =>
    (match rpc with
     | .error e => (.error e, true)
     | .ok v =>
       let _cacheWrite : Except String Unit :=
         if putFails then .error "cache write failed" else .ok ()
       (.ok v, true))
  | .err _ =>
    (match rpc with
     | .error e => (.error e, true)
     | .ok v =>
       let _cacheWrite : Except String Unit :=
         if putFails then .error "cache write failed" else .ok ()
       (.ok v, true))

/-- `CachedBlockClient::get_blocks` (blocks as height lists). -/
def CachedBlockClient.get_blocks (cacheGet : CacheGet (List Nat)) (putFails : Bool)
    (rpc : Except String (List Nat)) : Except String (List Nat) × Bool :=
  cachedFetch cacheGet putFails rpc

/-- `CachedBlockClient::get_latest_block_number`. -/
def CachedBlockClient.get_latest_block_number (cacheGet : CacheGet Nat)
    (putFails : Bool) (rpc : Except String Nat) : Except String Nat × Bool :=
  cachedFetch cacheGet putFails rpc

/-- C8: for both cached operations, a failing cache read behaves exactly like
a miss (the inner RPC result is returned and the cache error never surfaces),
a failing cache write after a successful fetch never produces an error, and a
hit returns the cached value without consulting the RPC client. -/
theorem C8_cache_best_effort (e : String) (putFails : Bool)
    (rpcB : Except String (List Nat)) (rpcL : Except String Nat)
    (blocks : List Nat) (height : Nat) :
    (CachedBlockClient.get_blocks (.err e) putFails rpcB
      = CachedBlockClient.get_blocks .miss putFails rpcB) ∧
    (CachedBlockClient.get_blocks (.err e) putFails rpcB = (rpcB, true)) ∧
    (CachedBlockClient.get_blocks .miss putFails rpcB = (rpcB, true)) ∧
    (CachedBlockClient.get_blocks (.hit blocks) putFails rpcB = (.ok blocks, false)) ∧
    (CachedBlockClient.get_latest_block_number (.err e) putFails rpcL
      = CachedBlockClient.get_latest_block_number .miss putFails rpcL) ∧
    (CachedBlockClient.get_latest_block_number (.err e) putFails rpcL = (rpcL, true)) ∧
    (CachedBlockClient.get_latest_block_number .miss putFails rpcL = (rpcL, true)) ∧
    (CachedBlockClient.get_latest_block_number (.hit height) putFails rpcL
      = (.ok height, false)) := by
  unfold CachedBlockClient.get_blocks CachedBlockClient.get_latest_block_number cachedFetch
  cases rpcB <;> cases rpcL <;> exact ⟨rfl, rfl, rfl, rfl, rfl, rfl, rfl, rfl⟩

/-! ## `src/services/oz_monitor_integration.rs` — trigger conditions -/

/-- A monitor trigger condition, identified by its `script_path`; the
language tag, timeout and arguments are folded into the executor oracle. -/
structure TriggerCondition where
  script_path : String
deriving Repr, DecidableEq

/-- The part of `Monitor` that `evaluate_trigger_conditions` reads. -/
structure Monitor where
  trigger_conditions : List TriggerCondition
deriving Repr, DecidableEq

/-- Script resolution inside the condition loop: the `_trigger_script_cache`
hit wins; otherwise `load_script_from_database` is consulted and a success is
inserted into the cache before execution; a load failure propagates to the
caller, which fails open. -/
def resolveScriptContent (dbLoad : String → Except String String)
    (cache : List (String × String)) (c : TriggerCondition) :
    Except String (String × List (String × String)) :=
  match lookupA cache c.script_path with
  | some content => .ok (content, cache)
  | none =>
    match dbLoad c.script_path with
    | .ok content => .ok (content, insertA cache c.script_path content)
    | .error e => .error e

/-- The condition loop of `evaluate_trigger_conditions`.  `dbLoad` is the
database/filesystem script loader, `exec c content` the executor's outcome
for condition `c` on script `content`.  Returns the verdict and the script
cache after the call. -/
def evalTriggerConditionsFrom (dbLoad : String → Except String String)
    (exec : TriggerCondition → String → Except String Bool)
    (cache : List (String × String)) :
    List TriggerCondition → Bool × List (String × String)
  | [] => (true, cache)
  | c :: rest =>
    match resolveScriptContent dbLoad cache c with
    | .error _ => (true, cache)
    | .ok (content, cache') =>
      match exec c content with
      | .error _ => (true, cache')
      | .ok false => (false, cache')
      | .ok true => evalTriggerConditionsFrom dbLoad exec cache' rest

/-- `evaluate_trigger_conditions`: the early return for a monitor with no
conditions, then the loop. -/
def evaluate_trigger_conditions (dbLoad : String → Except String String)
    (exec : TriggerCondition → String → Except String Bool)
    (cache : List (String × String)) (monitor : Monitor) :
    Bool × List (String × String) :=
  if monitor.trigger_conditions.isEmpty then (true, cache)
  else evalTriggerConditionsFrom dbLoad exec cache monitor.trigger_conditions

theorem evalConds_prefix_all_true (dbLoad : String → Except String String)
    (exec : TriggerCondition → String → Except String Bool) :
    ∀ (pre : List TriggerCondition) (rest : List TriggerCondition)
      (cache : List (String × String)),
      (∀ c ∈ pre, (dbLoad c.script_path).isOk = true) →
      (∀ c ∈ pre, ∀ content, exec c content = .ok true) →
      ∃ cache', evalTriggerConditionsFrom dbLoad exec cache (pre ++ rest)
          = evalTriggerConditionsFrom dbLoad exec cache' rest ∧
        (∀ p, p ∉ pre.map TriggerCondition.script_path →
          lookupA cache' p = lookupA cache p)
  | [], rest, cache, _, _ => ⟨cache, rfl, fun _ _ => rfl⟩
  | c :: pre, rest, cache, hdb, hexec => by
    have hc : (dbLoad c.script_path).isOk = true := hdb c (List.mem_cons_self c pre)
    have hcexec := hexec c (List.mem_cons_self c pre)
    have hdb' : ∀ c' ∈ pre, (dbLoad c'.script_path).isOk = true :=
      fun c' hc' => hdb c' (List.mem_cons_of_mem c hc')
    have hexec' : ∀ c' ∈ pre, ∀ content, exec c' content = .ok true :=
      fun c' hc' => hexec c' (List.mem_cons_of_mem c hc')
    cases hlook : lookupA cache c.script_path with
    | some content =>
      obtain ⟨cache', heq, hpres⟩ :=
        evalConds_prefix_all_true dbLoad exec pre rest cache hdb' hexec'
      refine ⟨cache', ?_, ?_⟩
      · rw [List.cons_append]
        simp only [evalTriggerConditionsFrom, resolveScriptContent, hlook, hcexec]
        exact heq
      · intro p hp
        simp only [List.map_cons, List.mem_cons] at hp
        exact hpres p (fun hmem => hp (Or.inr hmem))
    | none =>
      obtain ⟨content, hcontent⟩ : ∃ content, dbLoad c.script_path = .ok content := by
        cases hdbl : dbLoad c.script_path with
        | ok v => exact ⟨v, rfl⟩
        | error e => rw [hdbl] at hc; simp [Except.isOk, Except.toBool] at hc
      obtain ⟨cache', heq, hpres⟩ := evalConds_prefix_all_true dbLoad exec pre rest
        (insertA cache c.script_path content) hdb' hexec'
      refine ⟨cache', ?_, ?_⟩
      · rw [List.cons_append]
        simp only [evalTriggerConditionsFrom, resolveScriptContent, hlook, hcontent, hcexec]
        exact heq
      · intro p hp
        simp only [List.map_cons, List.mem_cons] at hp
        rw [hpres p (fun hmem => hp (Or.inr hmem))]
        exact lookupA_insertA_ne cache c.script_path p content
          (fun hpe => hp (Or.inl hpe))

theorem evalConds_all_true (dbLoad : String → Except String String)
    (exec : TriggerCondition → String → Except String Bool) :
    ∀ (conds : List TriggerCondition) (cache : List (String × String)),
      (∀ c ∈ conds, ∀ content, exec c content = .ok true) →
      (evalTriggerConditionsFrom dbLoad exec cache conds).1 = true
  | [], _, _ => rfl
  | c :: rest, cache, hexec => by
    unfold evalTriggerConditionsFrom
    cases hres : resolveScriptContent dbLoad cache c with
    | error e => rfl
    | ok pair =>
      obtain ⟨content, cache'⟩ := pair
      dsimp only
      rw [hexec c (List.mem_cons_self c rest) content]
      exact evalConds_all_true dbLoad exec rest cache'
        (fun c' hc' => hexec c' (List.mem_cons_of_mem c hc'))

/-- C2: trigger-condition evaluation is fail-open.  With every condition
before `c` resolving and executing to true: a monitor with no conditions
includes the match; when `c`'s script is in neither the cache nor the
database, the match is included; when `c`'s executor errors, the match is
included; when `c`'s executor returns false, the match is excluded; and when
every condition executes to true, the match is included. -/
theorem C2_trigger_conditions_fail_open
    (dbLoad : String → Except String String)
    (exec : TriggerCondition → String → Except String Bool)
    (cache : List (String × String)) (pre rest : List TriggerCondition)
    (c : TriggerCondition) (monitor : Monitor)
    (hpreDb : ∀ c' ∈ pre, (dbLoad c'.script_path).isOk = true)
    (hpreExec : ∀ c' ∈ pre, ∀ content, exec c' content = .ok true) :
    (monitor.trigger_conditions = [] →
      (evaluate_trigger_conditions dbLoad exec cache monitor).1 = true) ∧
    (c.script_path ∉ pre.map TriggerCondition.script_path →
      lookupA cache c.script_path = none →
      (dbLoad c.script_path).isOk = false →
      (evalTriggerConditionsFrom dbLoad exec cache (pre ++ c :: rest)).1 = true) ∧
    ((∀ content, (exec c content).isOk = false) →
      (evalTriggerConditionsFrom dbLoad exec cache (pre ++ c :: rest)).1 = true) ∧
    ((dbLoad c.script_path).isOk = true → (∀ content, exec c content = .ok false) →
      (evalTriggerConditionsFrom dbLoad exec cache (pre ++ c :: rest)).1 = false) ∧
    ((∀ c' ∈ monitor.trigger_conditions, ∀ content, exec c' content = .ok true) →
      (evaluate_trigger_conditions dbLoad exec cache monitor).1 = true) := by
  obtain ⟨cache', heq, hpres⟩ :=
    evalConds_prefix_all_true dbLoad exec pre (c :: rest) cache hpreDb hpreExec
  refine ⟨?_, ?_, ?_, ?_, ?_⟩
  · intro hempty
    unfold evaluate_trigger_conditions
    rw [hempty]
    rfl
  · intro hnot hmiss hdbfail
    rw [heq]
    unfold evalTriggerConditionsFrom resolveScriptContent
    rw [hpres c.script_path hnot, hmiss]
    obtain ⟨e, he⟩ : ∃ e, dbLoad c.script_path = .error e := by
      cases hdbl : dbLoad c.script_path with
      | ok v => rw [hdbl] at hdbfail; simp [Except.isOk, Except.toBool] at hdbfail
      | error e => exact ⟨e, rfl⟩
    rw [he]
  · intro hexecfail
    rw [heq]
    unfold evalTriggerConditionsFrom
    cases hres : resolveScriptContent dbLoad cache' c with
    | error e => rfl
    | ok pair =>
      obtain ⟨content, cache''⟩ := pair
      dsimp only
      obtain ⟨e, he⟩ : ∃ e, exec c content = .error e := by
        cases hex : exec c content with
        | ok b =>
          have := hexecfail content
          rw [hex] at this
          simp [Except.isOk, Except.toBool] at this
        | error e => exact ⟨e, rfl⟩
      rw [he]
  · intro hdbok hexecfalse
    rw [heq]
    unfold evalTriggerConditionsFrom
    cases hres : resolveScriptContent dbLoad cache' c with
    | error e =>
      exfalso
      unfold resolveScriptContent at hres
      cases hlook : lookupA cache' c.script_path with
      | some content => rw [hlook] at hres; simp at hres
      | none =>
        rw [hlook] at hres
        obtain ⟨content, hcontent⟩ : ∃ content, dbLoad c.script_path = .ok content := by
          cases hdbl : dbLoad c.script_path with
          | ok v => exact ⟨v, rfl⟩
          | error e0 => rw [hdbl] at hdbok; simp [Except.isOk, Except.toBool] at hdbok
        rw [hcontent] at hres
        simp at hres
    | ok pair =>
      obtain ⟨content, cache''⟩ := pair
      dsimp only
      rw [hexecfalse content]
  · intro halltrue
    unfold evaluate_trigger_conditions
    by_cases hempty : monitor.trigger_conditions.isEmpty = true
    · rw [if_pos hempty]
    · rw [if_neg hempty]
      exact evalConds_all_true dbLoad exec monitor.trigger_conditions cache halltrue

/-- Witness for C2 at concrete data: a monitor whose single condition's
script is missing from cache and database still includes the match. -/
theorem C2_trigger_conditions_fail_open_witness :
    (evalTriggerConditionsFrom (fun _ => .error "missing")
      (fun _ _ => .ok true) [] ([] ++ ⟨"cond.py"⟩ :: [])).1 = true := by
  have h := (C2_trigger_conditions_fail_open (fun _ => .error "missing")
    (fun _ _ => .ok true) [] [] [] ⟨"cond.py"⟩ ⟨[]⟩
    (fun c' hc' => absurd hc' (List.not_mem_nil c'))
    (fun c' hc' => absurd hc' (List.not_mem_nil c'))).2.1
  exact h (by simp) rfl rfl

/-! ## `src/repositories/tenant.rs` -/

/-- A row of one of the tenant-scoped configuration tables
(`tenant_monitors` / `tenant_networks` / `tenant_triggers`): `name` stands
for the row's lookup key (`name`, `network_id`, or trigger `name`), and the
`jsonb` configuration together with the remaining columns is abstracted into
`payload`. -/
structure DbRow where
  tenant_id : Nat
  name : String
  is_active : Bool
  payload : Nat
deriving Repr, DecidableEq

/-- The SQL predicate every read path applies:
`tenant_id = ANY($filter) AND is_active = true`. -/
def rowVisible (filter : List Nat) (r : DbRow) : Bool :=
  filter.contains r.tenant_id && r.is_active

/-- The shared `get_all` read path: the filtered rows folded into a map keyed
by name (`result.insert(name, …)` per row). -/
def getAllRows (db : List DbRow) (filter : List Nat) : List (String × Nat) :=
  (db.filter (rowVisible filter)).foldl (fun acc r => insertA acc r.name r.payload) []

/-- The shared `get` read path: the first filtered row with this name
(`LIMIT 1`). -/
def getRow (db : List DbRow) (filter : List Nat) (name : String) : Option Nat :=
  ((db.filter (rowVisible filter)).find? (fun r => r.name == name)).map
    (fun r => r.payload)

/-- `TenantAwareMonitorRepository`: the database handle becomes the table's
rows; `tenant_filter` is the constructor-supplied tenant set. -/
structure TenantAwareMonitorRepository where
  db : List DbRow
  tenant_filter : List Nat
deriving Repr, DecidableEq

/-- `TenantAwareMonitorRepository::update_tenant_filter` — the body is empty:
"For now, this is a no-op as the repository is created with specific
tenants." -/
def TenantAwareMonitorRepository.update_tenant_filter
    (self : TenantAwareMonitorRepository) (_tenant_filter : List Nat) :
    TenantAwareMonitorRepository :=
  self

/-- `TenantAwareMonitorRepository::get_all` via `get_all_internal`. -/
def TenantAwareMonitorRepository.get_all (self : TenantAwareMonitorRepository) :
    List (String × Nat) :=
  getAllRows self.db self.tenant_filter

/-- `TenantAwareMonitorRepository::get` via `get_internal`. -/
def TenantAwareMonitorRepository.get (self : TenantAwareMonitorRepository)
    (name : String) : Option Nat :=
  getRow self.db self.tenant_filter name

/-- `TenantAwareNetworkRepository`, identical shape. -/
structure TenantAwareNetworkRepository where
  db : List DbRow
  tenant_filter : List Nat
deriving Repr, DecidableEq

/-- `TenantAwareNetworkRepository::update_tenant_filter` — the same no-op. -/
def TenantAwareNetworkRepository.update_tenant_filter
    (self : TenantAwareNetworkRepository) (_tenant_filter : List Nat) :
    TenantAwareNetworkRepository :=
  self

def TenantAwareNetworkRepository.get_all (self : TenantAwareNetworkRepository) :
    List (String × Nat) :=
  getAllRows self.db self.tenant_filter

def TenantAwareNetworkRepository.get (self : TenantAwareNetworkRepository)
    (network_id : String) : Option Nat :=
  getRow self.db self.tenant_filter network_id

/-- `TenantAwareTriggerRepository`, identical shape. -/
structure TenantAwareTriggerRepository where
  db : List DbRow
  tenant_filter : List Nat
deriving Repr, DecidableEq

/-- `TenantAwareTriggerRepository::update_tenant_filter` — the same no-op. -/
def TenantAwareTriggerRepository.update_tenant_filter
    (self : TenantAwareTriggerRepository) (_tenant_filter : List Nat) :
    TenantAwareTriggerRepository :=
  self

def TenantAwareTriggerRepository.get_all (self : TenantAwareTriggerRepository) :
    List (String × Nat) :=
  getAllRows self.db self.tenant_filter

def TenantAwareTriggerRepository.get (self : TenantAwareTriggerRepository)
    (name : String) : Option Nat :=
  getRow self.db self.tenant_filter name

theorem mem_insertA {α β : Type} [DecidableEq α] (k : α) (v : β) (x : α × β) :
    ∀ l : List (α × β), x ∈ insertA l k v → x ∈ l ∨ x = (k, v)
  | [], hx => by
    simp only [insertA, List.mem_singleton] at hx
    exact Or.inr hx
  | (k₀, v₀) :: rest, hx => by
    by_cases h : k₀ = k
    · rw [show insertA ((k₀, v₀) :: rest) k v = (k, v) :: rest by simp [insertA, h]] at hx
      rcases List.mem_cons.mp hx with h1 | h1
      · exact Or.inr h1
      · exact Or.inl (List.mem_cons_of_mem _ h1)
    · rw [show insertA ((k₀, v₀) :: rest) k v = (k₀, v₀) :: insertA rest k v by
        simp [insertA, h]] at hx
      rcases List.mem_cons.mp hx with h1 | h1
      · exact Or.inl (h1 ▸ List.mem_cons_self _ _)
      · rcases mem_insertA k v x rest h1 with h2 | h2
        · exact Or.inl (List.mem_cons_of_mem _ h2)
        · exact Or.inr h2

theorem mem_foldl_insertA (rows : List DbRow) :
    ∀ (acc : List (String × Nat)) (x : String × Nat),
      x ∈ rows.foldl (fun acc r => insertA acc r.name r.payload) acc →
      x ∈ acc ∨ ∃ r ∈ rows, x = (r.name, r.payload)
  | acc, x, hx => by
    induction rows generalizing acc with
    | nil => exact Or.inl hx
    | cons r rows ih =>
      simp only [List.foldl_cons] at hx
      rcases ih (insertA acc r.name r.payload) hx with h1 | h1
      · rcases mem_insertA r.name r.payload x acc h1 with h2 | h2
        · exact Or.inl h2
        · exact Or.inr ⟨r, List.mem_cons_self r rows, h2⟩
      · rcases h1 with ⟨r', hr', hx'⟩
        exact Or.inr ⟨r', List.mem_cons_of_mem r hr', hx'⟩

theorem rowVisible_spec (filter : List Nat) (r : DbRow)
    (h : rowVisible filter r = true) : r.tenant_id ∈ filter ∧ r.is_active = true := by
  unfold rowVisible at h
  rw [Bool.and_eq_true] at h
  exact ⟨by simpa using h.1, h.2⟩

theorem mem_getAllRows (db : List DbRow) (filter : List Nat) (n : String) (p : Nat)
    (h : (n, p) ∈ getAllRows db filter) :
    ∃ r ∈ db, r.name = n ∧ r.payload = p ∧ r.tenant_id ∈ filter ∧
      r.is_active = true := by
  unfold getAllRows at h
  rcases mem_foldl_insertA (db.filter (rowVisible filter)) [] (n, p) h with h1 | h1
  · exact absurd h1 (List.not_mem_nil _)
  · rcases h1 with ⟨r, hr, hx⟩
    rcases List.mem_filter.mp hr with ⟨hrdb, hrvis⟩
    rcases rowVisible_spec filter r hrvis with ⟨htid, hact⟩
    obtain ⟨hn, hp⟩ : r.name = n ∧ r.payload = p := by
      have h1 := congrArg Prod.fst hx
      have h2 := congrArg Prod.snd hx
      exact ⟨h1.symm, h2.symm⟩
    exact ⟨r, hrdb, hn, hp, htid, hact⟩

theorem getRow_spec (db : List DbRow) (filter : List Nat) (n : String) (q : Nat)
    (h : getRow db filter n = some q) :
    ∃ r ∈ db, r.name = n ∧ r.payload = q ∧ r.tenant_id ∈ filter ∧
      r.is_active = true := by
  unfold getRow at h
  cases hf : (db.filter (rowVisible filter)).find? (fun r => r.name == n) with
  | none => rw [hf] at h; simp at h
  | some r =>
    rw [hf] at h
    simp only [Option.map_some'] at h
    have hq : r.payload = q := by simpa using h
    have hmem := List.mem_of_find?_eq_some hf
    have hpred := List.find?_some hf
    have hn : r.name = n := by simpa using hpred
    rcases List.mem_filter.mp hmem with ⟨hrdb, hrvis⟩
    rcases rowVisible_spec filter r hrvis with ⟨htid, hact⟩
    exact ⟨r, hrdb, hn, hq, htid, hact⟩

/-- C6 (amended): `update_tenant_filter` is a no-op on all three tenant-aware
repositories: the effective tenant filter is permanently the
constructor-supplied set, so after any `update_tenant_filter(F')` — directly
or via `reload_configurations` — every row returned by `get_all` or `get`
still belongs to an original-filter tenant (and is active), not to `F'`. -/
theorem C6_update_tenant_filter_noop (db : List DbRow) (f f' : List Nat)
    (n : String) (p : Nat) :
    ((TenantAwareMonitorRepository.mk db f).update_tenant_filter f'
      = TenantAwareMonitorRepository.mk db f) ∧
    ((TenantAwareNetworkRepository.mk db f).update_tenant_filter f'
      = TenantAwareNetworkRepository.mk db f) ∧
    ((TenantAwareTriggerRepository.mk db f).update_tenant_filter f'
      = TenantAwareTriggerRepository.mk db f) ∧
    ((n, p) ∈ ((TenantAwareMonitorRepository.mk db f).update_tenant_filter f').get_all →
      ∃ r ∈ db, r.name = n ∧ r.payload = p ∧ r.tenant_id ∈ f ∧ r.is_active = true) ∧
    (∀ q, ((TenantAwareMonitorRepository.mk db f).update_tenant_filter f').get n
        = some q →
      ∃ r ∈ db, r.name = n ∧ r.payload = q ∧ r.tenant_id ∈ f ∧ r.is_active = true) := by
  refine ⟨rfl, rfl, rfl, ?_, ?_⟩
  · intro h
    exact mem_getAllRows db f n p h
  · intro q h
    exact getRow_spec db f n q h

/-- The repository used to refute C6: constructed for tenant 1 with one
active row owned by tenant 1. -/
def repoMon : TenantAwareMonitorRepository :=
  { db := [{ tenant_id := 1, name := "m1", is_active := true, payload := 10 }]
    tenant_filter := [1] }

/-- C6 counterexample: after `update_tenant_filter([2])` the repository still
returns tenant 1's row — the result set is *not* restricted to the most
recently supplied filter `{2}`. -/
theorem C6_update_tenant_filter_counterexample :
    ¬ (∀ (n : String) (p : Nat),
        (n, p) ∈ (repoMon.update_tenant_filter [2]).get_all →
        ∃ r ∈ repoMon.db, r.name = n ∧ r.payload = p ∧ r.tenant_id ∈ [2]) := by
  intro h
  rcases h "m1" 10 (by with_unfolding_all decide) with ⟨r, hr, _, _, hrt⟩
  have hr1 : r = { tenant_id := 1, name := "m1", is_active := true, payload := 10 } := by
    simpa [repoMon] using hr
  subst hr1
  exact absurd hrt (by decide)

/-- A concrete `TenantMetrics` record used to witness C9's hypotheses. -/
def metricsLow : TenantMetrics :=
  { tenant_id := 1, monitors_count := 0, avg_rpc_calls_per_minute := 50,
    avg_filter_complexity := 5, total_matches_last_hour := 100,
    notifications_sent_last_hour := 0 }

/-- A component-wise larger `TenantMetrics` record used to witness C9. -/
def metricsHigh : TenantMetrics :=
  { tenant_id := 2, monitors_count := 0, avg_rpc_calls_per_minute := 60,
    avg_filter_complexity := 6, total_matches_last_hour := 200,
    notifications_sent_last_hour := 0 }

/-- Witness for C9 at the concrete records `metricsLow ≤ metricsHigh`. -/
theorem C9_activity_score_formula_bounds_monotone_witness :
    metricsLow.activity_score ≤ metricsHigh.activity_score := by
  have h := C9_activity_score_formula_bounds_monotone metricsLow metricsHigh
    (by norm_num [metricsLow]) (by norm_num [metricsLow])
  exact h.2.2.2 (by norm_num [metricsLow, metricsHigh])
    (by norm_num [metricsLow, metricsHigh]) (by norm_num [metricsLow, metricsHigh])

end OzOrch
